import Mathlib

/-!
Verification of the feed subscription module (`rssant_api/models/feed.py`):
a shallow embedding of the data model and of the operations
`RawFeed.set_content` / `RawFeed.get_content`,
`UserFeed.query_by_user`, `UserFeed.create_by_url`,
`UserFeed.create_by_url_s`, `UserFeed.update_story_offset`,
`FeedUrlMap.find_target` and `FeedUrlMap.find_all_target`,
followed by theorems about them.

Modelling conventions:
* timestamps and primary keys are `Nat`, urls are `String`;
* a database table is a list of rows in insertion (scan) order;
* SQL `ORDER BY dt_created DESC` breaks ties between equal timestamps
  nondeterministically in the real database; the embedding fixes the
  deterministic reading in which the first-scanned row among the ties wins;
* `gzip.compress` / `gzip.decompress` come from the Python standard
  library, outside this repository, so they are parameters of the model.
-/

set_option autoImplicit false

namespace Rssant

/-- Feed status values (`FeedStatus` in the source). -/
inductive FeedStatus where
  | pending
  | updating
  | ready
  | error
  deriving DecidableEq, Repr

/-- A row of the `Feed` table: the canonical feed, keyed by unique `url`.
Only the fields read by the verified operations are modelled. -/
structure Feed where
  id : Nat
  url : String
  status : FeedStatus
  deriving DecidableEq, Repr

/-- A row of the `UserFeed` table (a user's subscription).  `feed_id = none`
models a NULL foreign key (not yet bound to a canonical feed).
`dt_updated` is a `Nat` timestamp; the NULL value carried by a freshly
constructed, never-updated row is modelled as `0`. -/
structure UserFeed where
  id : Nat
  user_id : Nat
  feed_id : Option Nat
  status : FeedStatus
  url : String
  story_offset : Nat
  dt_updated : Nat
  deriving DecidableEq, Repr

/-- A row of the `FeedUrlMap` table: one observed `source → target`
resolution with its creation timestamp. -/
structure FeedUrlMap where
  id : Nat
  source : String
  target : String
  dt_created : Nat
  deriving DecidableEq, Repr

/-- The database state the module operates on: the three tables, each a
list of rows in insertion (scan) order. -/
structure Db where
  feeds : List Feed
  user_feeds : List UserFeed
  url_maps : List FeedUrlMap
  deriving DecidableEq, Repr

/-- Lookup in a Python dict built by successive `d[k] = v` assignments over
`pairs` in order: the last binding of a key wins. -/
def dictGet {κ β : Type} [DecidableEq κ] (pairs : List (κ × β)) (k : κ) : Option β :=
  (pairs.reverse.find? (fun p => decide (p.1 = k))).map (fun p => p.2)

/-- Insert `x` into `l` immediately before the first element `h` with
`le x h = true`. -/
def insertLe {α : Type} (le : α → α → Bool) (x : α) : List α → List α
  | [] => [x]
  | h :: t => if le x h then x :: h :: t else h :: insertLe le x t

/-- Insertion sort with comparator `le`; models Python's `sorted`. -/
def sortLe {α : Type} (le : α → α → Bool) (l : List α) : List α :=
  l.foldr (insertLe le) []

namespace FeedUrlMap

/-- One step of scanning for the most recent row: keep the incumbent unless
the new row's `dt_created` is strictly greater.  This realises
`ORDER BY dt_created DESC` deterministically: among rows with equal
`dt_created`, the row scanned first wins. -/
def latestStep (acc : Option FeedUrlMap) (r : FeedUrlMap) : Option FeedUrlMap :=
  match acc with
  | none => some r
  | some b => if b.dt_created < r.dt_created then some r else some b

/-- The first row of `rows` under `ORDER BY dt_created DESC` (ties resolved
by scan order), i.e. `q.first()` in `find_target`. -/
def latestRow (rows : List FeedUrlMap) : Option FeedUrlMap :=
  rows.foldl latestStep none

/-- `FeedUrlMap.find_target`: filter rows by `source`, order by
`-dt_created`, return the first row's `target` (or `none` when the source
was never observed). -/
def find_target (db : Db) (source : String) : Option String :=
  (latestRow (db.url_maps.filter (fun r => decide (r.source = source)))).map
    (fun r => r.target)

/-- `FeedUrlMap.find_all_target`: the raw SQL
`SELECT DISTINCT ON (source) ... WHERE source = ANY(source_list)
ORDER BY source, dt_created DESC` keeps, for every source of `source_list`
present in the table, the first row of its group under the recency order.
Modelled as a single scan over the filtered table maintaining the best row
seen so far for each source (same tie convention as `latestStep`); the
result is the `source → target` dictionary the Python code builds. -/
def find_all_target (db : Db) (source_list : List String) : String → Option String :=
  fun s =>
    ((db.url_maps.filter (fun r => source_list.contains r.source)).foldl
        (fun acc r => fun s2 => if s2 = r.source then latestStep (acc s2) r else acc s2)
        (fun _ => none) s).map
      (fun r => r.target)

end FeedUrlMap

/-- The fields of a `RawFeed` row touched by `set_content` / `get_content`.
`content = none` models a NULL content column, `some bytes` a byte string. -/
structure RawFeed where
  is_gzipped : Bool
  content : Option (List Nat)
  deriving DecidableEq, Repr

namespace RawFeed

/-- `RawFeed.set_content`: payloads of at least 1024 bytes are stored
compressed with `is_gzipped = true`; everything else (short payloads, the
empty byte string, NULL) is stored verbatim with `is_gzipped = false`.
The compressor (`gzip.compress` with `compresslevel=9`) is a parameter of
the model; the `c ≠ []` conjunct mirrors Python's truthiness test
`if content and len(content) >= 1024`. -/
def set_content (gzip_compress : List Nat → List Nat) (rf : RawFeed)
    (content : Option (List Nat)) : RawFeed :=
  match content with
  | some c =>
    if c ≠ [] ∧ 1024 ≤ c.length then
      { rf with content := some (gzip_compress c), is_gzipped := true }
    else
      { rf with content := some c, is_gzipped := false }
  | none => { rf with content := none, is_gzipped := false }

/-- `RawFeed.get_content`: `decompress = none` models the `decompress=None`
default, in which case the stored `is_gzipped` flag decides; truthy stored
content is decompressed exactly when the decision is positive. -/
def get_content (gzip_decompress : List Nat → List Nat) (rf : RawFeed)
    (decompress : Option Bool) : Option (List Nat) :=
  let d := decompress.getD rf.is_gzipped
  match rf.content with
  | some c => if c ≠ [] ∧ d = true then some (gzip_decompress c) else some c
  | none => none

end RawFeed

namespace UserFeed

/-- The `show_pending` filter: `q.exclude(status=FeedStatus.PENDING)` is
applied unless `show_pending` is true. -/
def visible (show_pending : Bool) (uf : UserFeed) : Bool :=
  show_pending || decide (uf.status ≠ FeedStatus.pending)

/-- Descending `(dt_updated, id)` order used to sort the changed rows:
`sorted(key=lambda x: (x.dt_updated, x.id), reverse=True)`. -/
def dtIdGe (a b : UserFeed) : Bool :=
  decide (b.dt_updated < a.dt_updated) ||
    (decide (b.dt_updated = a.dt_updated) && decide (b.id ≤ a.id))

/-- `UserFeed.query_by_user`.  The source returns a bare list when `hints`
is empty (`return list(q.all())`) and a `(total, user_feeds)` pair
otherwise, so the result type is a sum.  A hint is an `(id, dt_updated)`
pair; the Python dict comprehension over the hints is `dictGet`. -/
def query_by_user (db : Db) (user_id : Nat) (hints : List (Nat × Nat))
    (show_pending : Bool) : Sum (List UserFeed) (Nat × List UserFeed) :=
  if hints.isEmpty then
    Sum.inl (db.user_feeds.filter (fun uf =>
      decide (uf.user_id = user_id) && visible show_pending uf))
  else
    let hint_map := dictGet hints
    let user_feeds := db.user_feeds.filter (fun uf =>
      decide (uf.user_id = user_id) && visible show_pending uf)
    let total := user_feeds.length
    let updates := (user_feeds.filter (fun uf =>
      match hint_map uf.id with
      | none => true
      | some t => decide (t < uf.dt_updated))).map (fun uf => uf.id)
    let changed := db.user_feeds.filter (fun uf =>
      decide (uf.user_id = user_id) && updates.contains uf.id &&
        visible show_pending uf)
    Sum.inr (total, sortLe dtIdGe changed)

/-- `UserFeed.create_by_url`.  `Except.error ()` models raising
`FeedExistsException`.  The constructed row is returned without being
saved — the method calls neither `save()` nor `create()` — so the second
component is the unchanged database.  A fresh unsaved row has no primary
key yet, modelled as `id = 0`.  The `target_url ≠ ""` test mirrors
Python's `if target_url:` truthiness. -/
def create_by_url (db : Db) (url : String) (user_id : Nat) :
    Except Unit UserFeed × Db :=
  let feed : Option Feed :=
    match FeedUrlMap.find_target db url with
    | some target_url =>
      if target_url ≠ "" then db.feeds.find? (fun f => decide (f.url = target_url))
      else none
    | none => none
  match feed with
  | some f =>
    match db.user_feeds.find? (fun uf =>
        decide (uf.user_id = user_id) && decide (uf.feed_id = some f.id)) with
    | some _ => (Except.error (), db)
    | none =>
      (Except.ok { id := 0, user_id := user_id, feed_id := some f.id,
                   status := FeedStatus.ready, url := url, story_offset := 0,
                   dt_updated := 0 }, db)
  | none =>
    (Except.ok { id := 0, user_id := user_id, feed_id := none,
                 status := FeedStatus.pending, url := url, story_offset := 0,
                 dt_updated := 0 }, db)

/-- `UserFeed.create_by_url_s`: the bulk subscribe path.  Returns the list
the function returns: the pre-existing subscriptions found for the
resolved feeds plus the freshly constructed rows, sorted by `url`.
`batch_size` only chunks the bulk insert and never changes the result, so
it is not a parameter of the model. -/
def create_by_url_s (db : Db) (urls : List String) (user_id : Nat) :
    List UserFeed :=
  if urls.isEmpty then []
  else
    let url_map := FeedUrlMap.find_all_target db urls
    let targets := (urls.filterMap url_map).dedup
    let found_feeds := db.feeds.filter (fun f => targets.contains f.url)
    let feed_map := dictGet (found_feeds.map (fun f => (f.url, f)))
    let found_user_feeds := db.user_feeds.filter (fun uf =>
      decide (uf.user_id = user_id) &&
        (match uf.feed_id with
         | some fid => found_feeds.any (fun f => decide (f.id = fid))
         | none => false))
    let user_feed_map := dictGet (found_user_feeds.filterMap (fun uf =>
      uf.feed_id.map (fun fid => (fid, uf))))
    let user_feed_bulk_creates := urls.filterMap (fun url =>
      match (url_map url).bind feed_map with
      | some feed =>
        if (user_feed_map feed.id).isSome then none
        else some { id := 0, user_id := user_id, feed_id := some feed.id,
                    status := FeedStatus.ready, url := url, story_offset := 0,
                    dt_updated := 0 }
      | none =>
        some { id := 0, user_id := user_id, feed_id := none,
               status := FeedStatus.pending, url := url, story_offset := 0,
               dt_updated := 0 })
    sortLe (fun a b => decide (a.url ≤ b.url))
      (found_user_feeds ++ user_feed_bulk_creates)

/-- `UserFeed.update_story_offset`: sets `story_offset`, sets `dt_updated`
to the current clock reading `now` (`timezone.now()`), and saves, i.e.
overwrites the row with primary key `uf_id`. -/
def update_story_offset (db : Db) (uf_id : Nat) (offset : Nat) (now : Nat) : Db :=
  { db with user_feeds := db.user_feeds.map (fun uf =>
      if uf.id = uf_id then { uf with story_offset := offset, dt_updated := now }
      else uf) }

end UserFeed

end Rssant

namespace Rssant

/-! ### Generic list lemmas -/

theorem insertLe_perm {α : Type} (le : α → α → Bool) (x : α) (l : List α) :
    (insertLe le x l).Perm (x :: l) := by
  induction l with
  | nil => exact List.Perm.refl _
  | cons h t ih =>
    simp only [insertLe]
    split
    · exact List.Perm.refl _
    · exact (List.Perm.cons h ih).trans (List.Perm.swap x h t)

theorem sortLe_perm {α : Type} (le : α → α → Bool) (l : List α) :
    (sortLe le l).Perm l := by
  induction l with
  | nil => exact List.Perm.refl _
  | cons h t ih =>
    exact (insertLe_perm le h (sortLe le t)).trans (List.Perm.cons h ih)

theorem mem_sortLe {α : Type} {le : α → α → Bool} {l : List α} {a : α} :
    a ∈ sortLe le l ↔ a ∈ l :=
  (sortLe_perm le l).mem_iff

theorem find?_congr_mem {α : Type} {l : List α} {p q : α → Bool}
    (h : ∀ x ∈ l, p x = q x) : l.find? p = l.find? q := by
  induction l with
  | nil => rfl
  | cons a t ih =>
    have ha := h a (List.mem_cons_self a t)
    by_cases hp : p a = true
    · rw [List.find?_cons_of_pos _ hp, List.find?_cons_of_pos _ (ha ▸ hp)]
    · rw [List.find?_cons_of_neg _ hp,
        List.find?_cons_of_neg _ (by rw [← ha]; exact hp)]
      exact ih (fun x hx => h x (List.mem_cons_of_mem a hx))

theorem find?_filter_of_imp {α : Type} (l : List α) (p q : α → Bool)
    (h : ∀ x, p x = true → q x = true) :
    (l.filter q).find? p = l.find? p := by
  induction l with
  | nil => rfl
  | cons a t ih =>
    by_cases hq : q a = true
    · rw [List.filter_cons_of_pos hq]
      by_cases hp : p a = true
      · rw [List.find?_cons_of_pos _ hp, List.find?_cons_of_pos _ hp]
      · rw [List.find?_cons_of_neg _ hp, List.find?_cons_of_neg _ hp, ih]
    · have hp : ¬ p a = true := fun hpa => hq (h a hpa)
      rw [List.filter_cons_of_neg (by simpa using hq),
        List.find?_cons_of_neg _ hp, ih]

theorem find?_reverse_of_unique {α : Type} (l : List α) (p : α → Bool)
    (huniq : ∀ a ∈ l, ∀ b ∈ l, p a = true → p b = true → a = b) :
    l.reverse.find? p = l.find? p := by
  cases h1 : l.find? p with
  | none =>
    cases h2 : l.reverse.find? p with
    | none => rfl
    | some b =>
      exfalso
      have hb := List.find?_some h2
      have hbm : b ∈ l := List.mem_reverse.mp (List.mem_of_find?_eq_some h2)
      have : (l.find? p).isSome := List.find?_isSome.mpr ⟨b, hbm, hb⟩
      rw [h1] at this
      exact Bool.noConfusion this
  | some a =>
    have ha := List.find?_some h1
    have ham : a ∈ l := List.mem_of_find?_eq_some h1
    cases h2 : l.reverse.find? p with
    | none =>
      exfalso
      have : (l.reverse.find? p).isSome :=
        List.find?_isSome.mpr ⟨a, List.mem_reverse.mpr ham, ha⟩
      rw [h2] at this
      exact Bool.noConfusion this
    | some b =>
      have hb := List.find?_some h2
      have hbm : b ∈ l := List.mem_reverse.mp (List.mem_of_find?_eq_some h2)
      rw [huniq b hbm a ham hb ha]

/-- `dictGet` over key-value pairs built from a list with duplicate-free
keys is the first (equivalently unique) match. -/
theorem dictGet_map_key {α : Type} [DecidableEq α] {κ : Type} [DecidableEq κ]
    (l : List α) (key : α → κ) (k : κ)
    (hnodup : (l.map key).Nodup) :
    dictGet (l.map (fun x => (key x, x))) k = l.find? (fun x => decide (key x = k)) := by
  unfold dictGet
  rw [← List.map_reverse, List.find?_map]
  have huniq : ∀ a ∈ l.reverse, ∀ b ∈ l.reverse,
      (fun x => decide (key x = k)) a = true →
      (fun x => decide (key x = k)) b = true → a = b := by
    intro a ha b hb hpa hpb
    have hinj := List.inj_on_of_nodup_map hnodup
    exact hinj (List.mem_reverse.mp ha) (List.mem_reverse.mp hb)
      (by simp only [decide_eq_true_eq] at hpa hpb; rw [hpa, hpb])
  have hrr : l.reverse.reverse = l := List.reverse_reverse l
  have := find?_reverse_of_unique l.reverse (fun x => decide (key x = k)) huniq
  rw [hrr] at this
  rw [show ((fun p : κ × α => decide (p.1 = k)) ∘ fun x => (key x, x))
      = fun x => decide (key x = k) from rfl, this]
  cases List.find? (fun x => decide (key x = k)) l.reverse <;> rfl

end Rssant

namespace Rssant

/-! ### C10: `create_by_url` does not write to the store -/

/-- C10: `create_by_url` constructs and returns a Subscription object but
never inserts it into the subscription store (it calls neither `save()` nor
`create()`): the persisted rows are unchanged by the call on both the
resolved and the unresolved path. -/
theorem claim_C10_create_by_url_frame (db : Db) (url : String) (user_id : Nat) :
    (UserFeed.create_by_url db url user_id).2 = db := by
  unfold UserFeed.create_by_url
  dsimp only
  repeat' split
  all_goals rfl

/-! ### C7: `query_by_user` with empty hints -/

/-- C7 (amended): when `hints` is empty or absent, `query_by_user` returns
the user's full subscription list after applying the `show_pending`
filter — delivered as a bare list (`Sum.inl`), not in the
`(total_count, changed_subscriptions)` pair form. -/
theorem claim_C7_empty_hints_full_list (db : Db) (user_id : Nat) (show_pending : Bool) :
    UserFeed.query_by_user db user_id [] show_pending =
      Sum.inl (db.user_feeds.filter (fun uf =>
        decide (uf.user_id = user_id) && UserFeed.visible show_pending uf)) := rfl

/-- A store in which user 7 has one ready subscription. -/
def dbC7 : Db :=
  { feeds := [], user_feeds := [⟨1, 7, none, FeedStatus.ready, "u", 0, 3⟩],
    url_maps := [] }

/-- C7 counterexample: with empty hints the code executes
`return list(q.all())`, so the result is a bare list and not the
`(total_count, changed_subscriptions)` pair the claim requires, even for a
user who does have subscriptions. -/
theorem claim_C7_counterexample :
    (UserFeed.query_by_user dbC7 7 [] false).isRight = false ∧
      dbC7.user_feeds ≠ [] := by
  constructor
  · rfl
  · intro h
    exact List.noConfusion h

/-! ### C8: compression threshold policy -/

/-- C8: `set_content` stores a compressed form and marks
`is_gzipped = true` exactly when the payload's length is at least 1024
bytes, and otherwise stores the bytes verbatim with `is_gzipped = false`.
The compressor is the `gzip.compress` parameter `gz`. -/
theorem claim_C8_compression_threshold (gz : List Nat → List Nat)
    (rf : RawFeed) (c : List Nat) :
    ((RawFeed.set_content gz rf (some c)).is_gzipped = true ↔ 1024 ≤ c.length) ∧
      (RawFeed.set_content gz rf (some c)).content =
        (if 1024 ≤ c.length then some (gz c) else some c) := by
  simp only [RawFeed.set_content]
  by_cases h : 1024 ≤ c.length
  · have hc : c ≠ [] := by
      rintro rfl
      simp at h
    rw [if_pos ⟨hc, h⟩, if_pos h]
    exact ⟨by simp [h], rfl⟩
  · rw [if_neg (fun hh => h hh.2), if_neg h]
    exact ⟨by simp [h], rfl⟩

/-! ### C2: content round trip -/

/-- C2: storing any byte string (or NULL) with `set_content` and reading
it back with `get_content` under the automatic-decompression default
yields exactly the original value, in both the short-payload and the
`>= 1024` compressed case.  `gz` / `gunzip` stand for the Python standard
library's `gzip.compress` / `gzip.decompress`, assumed mutually inverse
and producing nonempty output on nonempty input. -/
theorem claim_C2_content_round_trip (gz gunzip : List Nat → List Nat)
    (hinv : ∀ c, gunzip (gz c) = c)
    (hne : ∀ c, c ≠ [] → gz c ≠ [])
    (rf : RawFeed) (content : Option (List Nat)) :
    RawFeed.get_content gunzip (RawFeed.set_content gz rf content) none = content := by
  cases content with
  | none => rfl
  | some c =>
    simp only [RawFeed.set_content]
    by_cases h : c ≠ [] ∧ 1024 ≤ c.length
    · rw [if_pos h]
      simp only [RawFeed.get_content, Option.getD_none]
      rw [if_pos ⟨hne c h.1, trivial⟩, hinv]
    · rw [if_neg h]
      simp only [RawFeed.get_content, Option.getD_none]
      rw [if_neg (fun hh => Bool.noConfusion hh.2)]

/-- C2 witness: the round trip evaluated with a concrete invertible
compressor (`List.reverse`) on a concrete 1024-byte payload (so the
compressed branch is the one taken), plus the hypotheses discharged. -/
theorem claim_C2_witness :
    (∀ c : List Nat, c.reverse.reverse = c) ∧
      (∀ c : List Nat, c ≠ [] → c.reverse ≠ []) ∧
      RawFeed.get_content List.reverse
        (RawFeed.set_content List.reverse ⟨false, none⟩
          (some (List.replicate 1024 7))) none = some (List.replicate 1024 7) :=
  ⟨fun c => List.reverse_reverse c,
   fun c hc => by simpa using hc,
   claim_C2_content_round_trip List.reverse List.reverse
     (fun c => List.reverse_reverse c) (fun c hc => by simpa using hc)
     ⟨false, none⟩ (some (List.replicate 1024 7))⟩

end Rssant


namespace Rssant

namespace FeedUrlMap

/-! ### Lemmas about the recency scan -/

/-- Binary step of the recency scan on known-present rows. -/
def maxRow (b r : FeedUrlMap) : FeedUrlMap :=
  if b.dt_created < r.dt_created then r else b

theorem maxRow_pos {b r : FeedUrlMap} (h : b.dt_created < r.dt_created) :
    maxRow b r = r := by
  unfold maxRow
  rw [if_pos h]

theorem maxRow_neg {b r : FeedUrlMap} (h : ¬ b.dt_created < r.dt_created) :
    maxRow b r = b := by
  unfold maxRow
  rw [if_neg h]

theorem foldl_latestStep_some (l : List FeedUrlMap) (b : FeedUrlMap) :
    l.foldl latestStep (some b) = some (l.foldl maxRow b) := by
  induction l generalizing b with
  | nil => rfl
  | cons r t ih =>
    show t.foldl latestStep (latestStep (some b) r) = _
    have hstep : latestStep (some b) r = some (maxRow b r) := by
      show (if b.dt_created < r.dt_created then some r else some b) = _
      by_cases h : b.dt_created < r.dt_created
      · rw [if_pos h, maxRow_pos h]
      · rw [if_neg h, maxRow_neg h]
    rw [hstep, ih]
    rfl

theorem latestRow_cons (a : FeedUrlMap) (l : List FeedUrlMap) :
    latestRow (a :: l) = some (l.foldl maxRow a) := by
  unfold latestRow
  show l.foldl latestStep (latestStep none a) = _
  exact foldl_latestStep_some l a

theorem foldl_maxRow_mem (l : List FeedUrlMap) (b : FeedUrlMap) :
    l.foldl maxRow b ∈ b :: l := by
  induction l generalizing b with
  | nil => exact List.mem_singleton.mpr rfl
  | cons r t ih =>
    have h := ih (maxRow b r)
    rcases List.mem_cons.mp h with h1 | h1
    · rw [show (r :: t).foldl maxRow b = t.foldl maxRow (maxRow b r) from rfl, h1]
      by_cases hbr : b.dt_created < r.dt_created
      · rw [maxRow_pos hbr]
        exact List.mem_cons_of_mem _ (List.mem_cons_self _ _)
      · rw [maxRow_neg hbr]
        exact List.mem_cons_self _ _
    · exact List.mem_cons_of_mem _ (List.mem_cons_of_mem _ h1)

theorem foldl_maxRow_le (l : List FeedUrlMap) (b : FeedUrlMap) :
    ∀ r ∈ b :: l, r.dt_created ≤ (l.foldl maxRow b).dt_created := by
  induction l generalizing b with
  | nil =>
    intro r hr
    rw [List.mem_singleton.mp hr]
    exact Nat.le_refl _
  | cons x t ih =>
    intro r hr
    have hbx : b.dt_created ≤ (maxRow b x).dt_created := by
      by_cases h : b.dt_created < x.dt_created
      · rw [maxRow_pos h]
        omega
      · rw [maxRow_neg h]
    have hxx : x.dt_created ≤ (maxRow b x).dt_created := by
      by_cases h : b.dt_created < x.dt_created
      · rw [maxRow_pos h]
      · rw [maxRow_neg h]
        omega
    have hfold : (x :: t).foldl maxRow b = t.foldl maxRow (maxRow b x) := rfl
    rw [hfold]
    rcases List.mem_cons.mp hr with h1 | h1
    · rw [h1]
      exact Nat.le_trans hbx (ih (maxRow b x) _ (List.mem_cons_self _ _))
    · rcases List.mem_cons.mp h1 with h2 | h2
      · rw [h2]
        exact Nat.le_trans hxx (ih (maxRow b x) _ (List.mem_cons_self _ _))
      · exact ih (maxRow b x) r (List.mem_cons_of_mem _ h2)

theorem foldl_maxRow_eq_or_lt (l : List FeedUrlMap) (b : FeedUrlMap) :
    l.foldl maxRow b = b ∨ b.dt_created < (l.foldl maxRow b).dt_created := by
  induction l generalizing b with
  | nil => exact Or.inl rfl
  | cons r t ih =>
    have hfold : (r :: t).foldl maxRow b = t.foldl maxRow (maxRow b r) := rfl
    rw [hfold]
    rcases ih (maxRow b r) with h | h
    · rw [h]
      by_cases hbr : b.dt_created < r.dt_created
      · right
        rw [maxRow_pos hbr]
        exact hbr
      · left
        exact maxRow_neg hbr
    · right
      by_cases hbr : b.dt_created < r.dt_created
      · rw [maxRow_pos hbr] at h ⊢
        omega
      · rw [maxRow_neg hbr] at h ⊢
        exact h

theorem foldl_maxRow_indep (t : List FeedUrlMap) :
    ∀ b1 b2 : FeedUrlMap,
      b1.dt_created < (t.foldl maxRow b1).dt_created →
      b2.dt_created < (t.foldl maxRow b1).dt_created →
      t.foldl maxRow b2 = t.foldl maxRow b1 := by
  induction t with
  | nil =>
    intro b1 b2 h1 _
    exact absurd h1 (Nat.lt_irrefl _)
  | cons r t ih =>
    intro b1 b2 h1 h2
    have e1 : (r :: t).foldl maxRow b1 = t.foldl maxRow (maxRow b1 r) := rfl
    have e2 : (r :: t).foldl maxRow b2 = t.foldl maxRow (maxRow b2 r) := rfl
    rw [e1] at h1 h2 ⊢
    rw [e2]
    by_cases hb1 : b1.dt_created < r.dt_created
    · rw [maxRow_pos hb1] at h1 h2 ⊢
      by_cases hb2 : b2.dt_created < r.dt_created
      · rw [maxRow_pos hb2]
      · rw [maxRow_neg hb2]
        have hrm : r.dt_created < (t.foldl maxRow r).dt_created := by
          rcases foldl_maxRow_eq_or_lt t r with h | h
          · rw [h] at h1
            omega
          · exact h
        exact ih r b2 hrm h2
    · rw [maxRow_neg hb1] at h1 h2 ⊢
      by_cases hb2 : b2.dt_created < r.dt_created
      · rw [maxRow_pos hb2]
        exact ih b1 r h1 (by omega)
      · rw [maxRow_neg hb2]
        exact ih b1 b2 h1 h2

end FeedUrlMap

end Rssant

namespace Rssant

namespace FeedUrlMap

/-- `latestRow` returns the first row in table-scan order among the rows of
maximal `dt_created` (`find?` scans left to right). -/
theorem latestRow_eq_find_first_max (l : List FeedUrlMap) :
    latestRow l =
      l.find? (fun r => l.all (fun r2 => decide (r2.dt_created ≤ r.dt_created))) := by
  induction l with
  | nil => rfl
  | cons a t ih =>
    rw [latestRow_cons]
    have hmem : t.foldl maxRow a ∈ a :: t := foldl_maxRow_mem t a
    have hmax : ∀ r ∈ a :: t, r.dt_created ≤ (t.foldl maxRow a).dt_created :=
      foldl_maxRow_le t a
    by_cases hPa : ((a :: t).all (fun r2 => decide (r2.dt_created ≤ a.dt_created))) = true
    · have hfind : List.find?
          (fun r => (a :: t).all (fun r2 => decide (r2.dt_created ≤ r.dt_created))) (a :: t)
          = some a := List.find?_cons_of_pos t hPa
      rw [hfind]
      have hle : (t.foldl maxRow a).dt_created ≤ a.dt_created := by
        simpa using List.all_eq_true.mp hPa _ hmem
      rcases foldl_maxRow_eq_or_lt t a with h | h
      · rw [h]
      · exact absurd h (Nat.not_lt.mpr hle)
    · have hfind : List.find?
          (fun r => (a :: t).all (fun r2 => decide (r2.dt_created ≤ r.dt_created))) (a :: t)
          = List.find?
            (fun r => (a :: t).all (fun r2 => decide (r2.dt_created ≤ r.dt_created))) t :=
        List.find?_cons_of_neg t hPa
      rw [hfind]
      have hex : a.dt_created < (t.foldl maxRow a).dt_created := by
        have hnot : ¬ ∀ r2 ∈ a :: t, r2.dt_created ≤ a.dt_created := by
          intro hall
          exact hPa (List.all_eq_true.mpr (fun r2 hr2 => decide_eq_true (hall r2 hr2)))
        push_neg at hnot
        obtain ⟨x, hx, hxgt⟩ := hnot
        exact Nat.lt_of_lt_of_le hxgt (hmax x hx)
      have hmt : t.foldl maxRow a ∈ t := by
        rcases List.mem_cons.mp hmem with h | h
        · rw [h] at hex
          exact absurd hex (Nat.lt_irrefl _)
        · exact h
      have hcongr :
          t.find? (fun r => (a :: t).all (fun r2 => decide (r2.dt_created ≤ r.dt_created)))
            = t.find? (fun r => t.all (fun r2 => decide (r2.dt_created ≤ r.dt_created))) := by
        apply find?_congr_mem
        intro x _
        rw [List.all_cons]
        by_cases hP : t.all (fun r2 => decide (r2.dt_created ≤ x.dt_created)) = true
        · rw [hP, Bool.and_true]
          have hmx : (t.foldl maxRow a).dt_created ≤ x.dt_created := by
            simpa using List.all_eq_true.mp hP _ hmt
          simp only [decide_eq_true_eq]
          omega
        · rw [Bool.not_eq_true] at hP
          rw [hP, Bool.and_false]
      rw [hcongr, ← ih]
      cases t with
      | nil => exact absurd hmt (List.not_mem_nil _)
      | cons b t' =>
        rw [latestRow_cons]
        have hfold : (b :: t').foldl maxRow a = t'.foldl maxRow (maxRow a b) := rfl
        by_cases hab : a.dt_created < b.dt_created
        · rw [hfold, maxRow_pos hab]
        · have hm' : (b :: t').foldl maxRow a = t'.foldl maxRow a := by
            rw [hfold, maxRow_neg hab]
          rw [hm'] at hex ⊢
          have h2 : b.dt_created < (t'.foldl maxRow a).dt_created := by omega
          rw [foldl_maxRow_indep t' a b hex h2]

/-- Applying the per-source dictionary built by the single scan of
`find_all_target` to one source is the recency scan over that source's own
rows. -/
theorem foldl_dict_apply (rows : List FeedUrlMap) (f : String → Option FeedUrlMap)
    (s : String) :
    (rows.foldl (fun acc r => fun s2 => if s2 = r.source then latestStep (acc s2) r else acc s2)
        f) s
      = (rows.filter (fun r => decide (r.source = s))).foldl latestStep (f s) := by
  induction rows generalizing f with
  | nil => rfl
  | cons r t ih =>
    show (t.foldl _ (fun s2 => if s2 = r.source then latestStep (f s2) r else f s2)) s = _
    rw [ih]
    by_cases hr : r.source = s
    · have hfc : List.filter (fun r => decide (r.source = s)) (r :: t)
          = r :: List.filter (fun r => decide (r.source = s)) t :=
        List.filter_cons_of_pos (decide_eq_true hr)
      rw [hfc, List.foldl_cons]
      congr 1
      show (if s = r.source then latestStep (f s) r else f s) = _
      rw [if_pos hr.symm]
    · have hfc : List.filter (fun r => decide (r.source = s)) (r :: t)
          = List.filter (fun r => decide (r.source = s)) t :=
        List.filter_cons_of_neg (by simpa using hr)
      rw [hfc]
      congr 1
      show (if s = r.source then latestStep (f s) r else f s) = _
      rw [if_neg (fun hh => hr hh.symm)]

/-- The batch query agrees with the single query on every requested
source. -/
theorem find_all_target_eq_find_target (db : Db) (srcs : List String) (s : String)
    (hs : s ∈ srcs) :
    find_all_target db srcs s = find_target db s := by
  unfold find_all_target find_target
  rw [foldl_dict_apply]
  have hff : (db.url_maps.filter (fun r => srcs.contains r.source)).filter
        (fun r => decide (r.source = s))
      = db.url_maps.filter (fun r => decide (r.source = s)) := by
    rw [List.filter_filter]
    apply List.filter_congr
    intro x _
    by_cases hx : x.source = s
    · simp [hx, hs]
    · simp [hx]
  rw [hff]
  rfl

end FeedUrlMap

/-! ### C5: resolver recency -/

/-- C5: `find_target` returns `none` exactly when the source was never
observed, otherwise the target of a most recent (maximal `dt_created`)
mapping for that source; and `find_all_target` agrees with `find_target`
for every source in the batch. -/
theorem claim_C5_resolver_recency (db : Db) (s : String) (srcs : List String)
    (hs : s ∈ srcs) :
    (FeedUrlMap.find_target db s = none ↔ ∀ r ∈ db.url_maps, r.source ≠ s) ∧
      (∀ tgt, FeedUrlMap.find_target db s = some tgt →
        ∃ r ∈ db.url_maps, r.source = s ∧ r.target = tgt ∧
          ∀ r2 ∈ db.url_maps, r2.source = s → r2.dt_created ≤ r.dt_created) ∧
      FeedUrlMap.find_all_target db srcs s = FeedUrlMap.find_target db s := by
  refine ⟨?_, ?_, FeedUrlMap.find_all_target_eq_find_target db srcs s hs⟩
  · unfold FeedUrlMap.find_target
    cases hfl : db.url_maps.filter (fun r => decide (r.source = s)) with
    | nil =>
      constructor
      · intro _ r hr hrs
        have hmem : r ∈ db.url_maps.filter (fun r => decide (r.source = s)) :=
          List.mem_filter.mpr ⟨hr, decide_eq_true hrs⟩
        rw [hfl] at hmem
        exact absurd hmem (List.not_mem_nil r)
      · intro _
        rfl
    | cons a t =>
      rw [FeedUrlMap.latestRow_cons]
      constructor
      · intro h
        exact absurd h (by simp)
      · intro hall
        exfalso
        have ha : a ∈ db.url_maps.filter (fun r => decide (r.source = s)) := by
          rw [hfl]
          exact List.mem_cons_self a t
        have hmf := List.mem_filter.mp ha
        exact hall a hmf.1 (of_decide_eq_true hmf.2)
  · intro tgt htgt
    unfold FeedUrlMap.find_target at htgt
    cases hfl : db.url_maps.filter (fun r => decide (r.source = s)) with
    | nil =>
      rw [hfl] at htgt
      exact absurd htgt (by simp [FeedUrlMap.latestRow])
    | cons a t =>
      rw [hfl, FeedUrlMap.latestRow_cons] at htgt
      have hm := FeedUrlMap.foldl_maxRow_mem t a
      have hmax := FeedUrlMap.foldl_maxRow_le t a
      have hmem : t.foldl FeedUrlMap.maxRow a
          ∈ db.url_maps.filter (fun r => decide (r.source = s)) := by
        rw [hfl]
        exact hm
      refine ⟨t.foldl FeedUrlMap.maxRow a, (List.mem_filter.mp hmem).1,
        of_decide_eq_true (List.mem_filter.mp hmem).2, by simpa using htgt, ?_⟩
      intro r2 hr2 hr2s
      have hmem2 : r2 ∈ db.url_maps.filter (fun r => decide (r.source = s)) :=
        List.mem_filter.mpr ⟨hr2, decide_eq_true hr2s⟩
      rw [hfl] at hmem2
      exact hmax r2 hmem2

/-- Resolver log with mappings `(A→X, t=1)` then `(A→Y, t=2)`. -/
def dbC5 : Db :=
  { feeds := [], user_feeds := [],
    url_maps := [⟨1, "A", "X", 1⟩, ⟨2, "A", "Y", 2⟩] }

/-- C5 witness: on the concrete log `(A→X, 1), (A→Y, 2)` the latest mapping
wins (`find_target A = Y`) and the batch query agrees. -/
theorem claim_C5_witness :
    FeedUrlMap.find_target dbC5 "A" = some "Y" ∧
      "A" ∈ ["A"] ∧
      ((FeedUrlMap.find_target dbC5 "A" = none ↔ ∀ r ∈ dbC5.url_maps, r.source ≠ "A") ∧
        (∀ tgt, FeedUrlMap.find_target dbC5 "A" = some tgt →
          ∃ r ∈ dbC5.url_maps, r.source = "A" ∧ r.target = tgt ∧
            ∀ r2 ∈ dbC5.url_maps, r2.source = "A" → r2.dt_created ≤ r.dt_created) ∧
        FeedUrlMap.find_all_target dbC5 ["A"] "A" = FeedUrlMap.find_target dbC5 "A") :=
  ⟨by decide, by decide, claim_C5_resolver_recency dbC5 "A" ["A"] (by decide)⟩

/-! ### C6: tie-breaking between equal timestamps -/

/-- Resolver log with two mappings for source A sharing `dt_created = 5`:
row id 1 maps to X, the later-inserted row id 2 maps to Y. -/
def dbC6 : Db :=
  { feeds := [], user_feeds := [],
    url_maps := [⟨1, "A", "X", 5⟩, ⟨2, "A", "Y", 5⟩] }

/-- C6 counterexample: with two mappings of identical `dt_created`, the
claimed "latest row under insertion sequence" is row id 2 (target Y), but
the queries order by `dt_created` alone and the result is X, the
first-scanned row: no row-identity tie-break exists in the code. -/
theorem claim_C6_counterexample :
    FeedUrlMap.find_target dbC6 "A" = some "X" ∧
      FeedUrlMap.find_target dbC6 "A" ≠ some "Y" := by
  constructor
  · rfl
  · decide

/-- C6 (amended): the queries order by `dt_created` only, with no
row-identity tie-break; in this embedding both `find_target` and
`find_all_target` deterministically return the target of the first row in
table-scan order among the source's rows of maximal `dt_created`, and they
agree on every batched source. -/
theorem claim_C6_tie_first_scanned (db : Db) (s : String) (srcs : List String)
    (hs : s ∈ srcs) :
    FeedUrlMap.find_target db s =
      ((db.url_maps.filter (fun r => decide (r.source = s))).find? (fun r =>
        (db.url_maps.filter (fun r2 => decide (r2.source = s))).all (fun r2 =>
          decide (r2.dt_created ≤ r.dt_created)))).map (fun r => r.target) ∧
      FeedUrlMap.find_all_target db srcs s = FeedUrlMap.find_target db s := by
  constructor
  · unfold FeedUrlMap.find_target
    rw [FeedUrlMap.latestRow_eq_find_first_max]
  · exact FeedUrlMap.find_all_target_eq_find_target db srcs s hs

/-- C6 witness: the amended statement applied to the concrete tied log. -/
theorem claim_C6_witness :
    "A" ∈ ["A"] ∧
      (FeedUrlMap.find_target dbC6 "A" =
        ((dbC6.url_maps.filter (fun r => decide (r.source = "A"))).find? (fun r =>
          (dbC6.url_maps.filter (fun r2 => decide (r2.source = "A"))).all (fun r2 =>
            decide (r2.dt_created ≤ r.dt_created)))).map (fun r => r.target) ∧
        FeedUrlMap.find_all_target dbC6 ["A"] "A" = FeedUrlMap.find_target dbC6 "A") :=
  ⟨by decide, claim_C6_tie_first_scanned dbC6 "A" ["A"] (by decide)⟩

end Rssant

namespace Rssant

/-- `contains` on a list of keys with a lawful `BEq` is membership. -/
theorem contains_iff_mem {α : Type} [BEq α] [LawfulBEq α] {l : List α} {a : α} :
    l.contains a = true ↔ a ∈ l := List.elem_iff

namespace UserFeed

/-- Characterisation of `query_by_user` on a nonempty hint list: it returns
`Sum.inr (total, changed)` where `total` counts the user's visible
subscriptions independently of the hints, and `changed` consists exactly of
the user's visible subscriptions whose id is unhinted or whose `dt_updated`
is strictly newer than the hinted value. -/
theorem query_by_user_hints_spec (db : Db) (user_id : Nat) (hints : List (Nat × Nat))
    (show_pending : Bool) (hne : hints ≠ [])
    (hnodup : (db.user_feeds.map (fun uf => uf.id)).Nodup) :
    ∃ changed,
      query_by_user db user_id hints show_pending =
        Sum.inr ((db.user_feeds.filter (fun uf =>
          decide (uf.user_id = user_id) && visible show_pending uf)).length, changed) ∧
      ∀ uf, uf ∈ changed ↔
        (uf ∈ db.user_feeds ∧ uf.user_id = user_id ∧ visible show_pending uf = true ∧
          (dictGet hints uf.id = none ∨
            ∃ t, dictGet hints uf.id = some t ∧ t < uf.dt_updated)) := by
  unfold query_by_user
  rw [if_neg (fun h => hne (List.isEmpty_iff.mp h))]
  refine ⟨_, rfl, ?_⟩
  intro uf
  rw [mem_sortLe, List.mem_filter]
  constructor
  · rintro ⟨hmem, hpred⟩
    rw [Bool.and_eq_true, Bool.and_eq_true] at hpred
    obtain ⟨⟨huser, hcont⟩, hvis⟩ := hpred
    obtain ⟨uf', huf', hideq⟩ := List.mem_map.mp (contains_iff_mem.mp hcont)
    have huf'f := List.mem_filter.mp huf'
    have huf'b := List.mem_filter.mp huf'f.1
    have heq : uf' = uf := List.inj_on_of_nodup_map hnodup huf'b.1 hmem hideq
    have hch := huf'f.2
    rw [heq] at hch
    refine ⟨hmem, of_decide_eq_true huser, hvis, ?_⟩
    cases hdg : dictGet hints uf.id with
    | none => exact Or.inl rfl
    | some t =>
      rw [hdg] at hch
      exact Or.inr ⟨t, rfl, of_decide_eq_true hch⟩
  · rintro ⟨hmem, huser, hvis, hch⟩
    refine ⟨hmem, ?_⟩
    have hchB : (match dictGet hints uf.id with
        | none => true
        | some t => decide (t < uf.dt_updated)) = true := by
      rcases hch with h | ⟨t, ht, hlt⟩
      · rw [h]
      · rw [ht]
        exact decide_eq_true hlt
    have hbase : uf ∈ db.user_feeds.filter (fun uf =>
        decide (uf.user_id = user_id) && visible show_pending uf) :=
      List.mem_filter.mpr ⟨hmem, by
        rw [Bool.and_eq_true]
        exact ⟨decide_eq_true huser, hvis⟩⟩
    have hupd : uf.id ∈ ((db.user_feeds.filter (fun uf =>
        decide (uf.user_id = user_id) && visible show_pending uf)).filter (fun uf =>
          match dictGet hints uf.id with
          | none => true
          | some t => decide (t < uf.dt_updated))).map (fun uf => uf.id) :=
      List.mem_map.mpr ⟨uf, List.mem_filter.mpr ⟨hbase, hchB⟩, rfl⟩
    rw [Bool.and_eq_true, Bool.and_eq_true]
    exact ⟨⟨decide_eq_true huser, contains_iff_mem.mpr hupd⟩, hvis⟩

end UserFeed

/-! ### C1: incremental diff completeness -/

/-- C1: for a user's subscription store and any nonempty hint map, the
query returns the pair `(total, changed)` where `total` is the number of
the user's subscriptions after the `show_pending` filter — independent of
the hints — and `changed` is exactly the set of the user's
`show_pending`-filtered subscriptions whose id is absent from the hints or
whose recorded `dt_updated` is strictly greater than the hinted value. -/
theorem claim_C1_diff_completeness (db : Db) (user_id : Nat)
    (hints : List (Nat × Nat)) (show_pending : Bool) (hne : hints ≠ [])
    (hnodup : (db.user_feeds.map (fun uf => uf.id)).Nodup) :
    ∃ changed,
      UserFeed.query_by_user db user_id hints show_pending =
        Sum.inr ((db.user_feeds.filter (fun uf =>
          decide (uf.user_id = user_id) && UserFeed.visible show_pending uf)).length,
          changed) ∧
      ∀ uf, uf ∈ changed ↔
        (uf ∈ db.user_feeds ∧ uf.user_id = user_id ∧
          UserFeed.visible show_pending uf = true ∧
          (dictGet hints uf.id = none ∨
            ∃ t, dictGet hints uf.id = some t ∧ t < uf.dt_updated)) :=
  UserFeed.query_by_user_hints_spec db user_id hints show_pending hne hnodup

/-- User 7's store for the C1 witness: id 1 ready (dt 3), id 2 pending
(dt 4), id 3 ready (dt 10); id 4 belongs to a different user. -/
def dbC1 : Db :=
  { feeds := [],
    user_feeds := [⟨1, 7, none, FeedStatus.ready, "a", 0, 3⟩,
                   ⟨2, 7, none, FeedStatus.pending, "b", 0, 4⟩,
                   ⟨3, 7, none, FeedStatus.ready, "c", 0, 10⟩,
                   ⟨4, 8, none, FeedStatus.ready, "d", 0, 5⟩],
    url_maps := [] }

/-- C1 witness: the diff theorem applied to a concrete store and the
nonempty hint map `{1 ↦ 3, 3 ↦ 4}`. -/
theorem claim_C1_witness :
    ([(1, 3), (3, 4)] : List (Nat × Nat)) ≠ [] ∧
      (dbC1.user_feeds.map (fun uf => uf.id)).Nodup ∧
      (∃ changed,
        UserFeed.query_by_user dbC1 7 [(1, 3), (3, 4)] false =
          Sum.inr ((dbC1.user_feeds.filter (fun uf =>
            decide (uf.user_id = 7) && UserFeed.visible false uf)).length, changed) ∧
        ∀ uf, uf ∈ changed ↔
          (uf ∈ dbC1.user_feeds ∧ uf.user_id = 7 ∧
            UserFeed.visible false uf = true ∧
            (dictGet [(1, 3), (3, 4)] uf.id = none ∨
              ∃ t, dictGet [(1, 3), (3, 4)] uf.id = some t ∧ t < uf.dt_updated))) :=
  ⟨by decide, by decide,
    claim_C1_diff_completeness dbC1 7 [(1, 3), (3, 4)] false (by decide) (by decide)⟩

end Rssant

namespace Rssant

/-! ### C9: story-offset update advances the subscription clock -/

/-- C9: `update_story_offset` sets `story_offset` to the requested value
and `dt_updated` to the current clock reading `now`; under a monotonic
clock (`now` strictly after the previous `dt_updated`) the subscription's
clock strictly advances, the updated row is persisted in the store, and
the next diff query (any nonempty hints whose entry for this subscription
predates the update) reports the subscription as changed. -/
theorem claim_C9_offset_monotonic_clock (db : Db) (u : UserFeed)
    (offset now user_id : Nat) (hints : List (Nat × Nat)) (show_pending : Bool)
    (hu : u ∈ db.user_feeds)
    (hmono : u.dt_updated < now)
    (hnodup : (db.user_feeds.map (fun uf => uf.id)).Nodup)
    (huser : u.user_id = user_id)
    (hvis : UserFeed.visible show_pending u = true)
    (hne : hints ≠ [])
    (hhint : ∀ t, dictGet hints u.id = some t → t < now) :
    ({ u with story_offset := offset, dt_updated := now } : UserFeed).story_offset
        = offset ∧
      ({ u with story_offset := offset, dt_updated := now } : UserFeed).dt_updated = now ∧
      u.dt_updated
        < ({ u with story_offset := offset, dt_updated := now } : UserFeed).dt_updated ∧
      ({ u with story_offset := offset, dt_updated := now } : UserFeed)
        ∈ (UserFeed.update_story_offset db u.id offset now).user_feeds ∧
      ∃ changed,
        UserFeed.query_by_user (UserFeed.update_story_offset db u.id offset now)
            user_id hints show_pending =
          Sum.inr (((UserFeed.update_story_offset db u.id offset now).user_feeds.filter
            (fun uf => decide (uf.user_id = user_id) &&
              UserFeed.visible show_pending uf)).length, changed) ∧
        ({ u with story_offset := offset, dt_updated := now } : UserFeed) ∈ changed := by
  have hmem : ({ u with story_offset := offset, dt_updated := now } : UserFeed)
      ∈ (UserFeed.update_story_offset db u.id offset now).user_feeds :=
    List.mem_map.mpr ⟨u, hu, by rw [if_pos rfl]⟩
  have hids : (UserFeed.update_story_offset db u.id offset now).user_feeds.map
      (fun uf => uf.id) = db.user_feeds.map (fun uf => uf.id) := by
    show (db.user_feeds.map _).map _ = _
    rw [List.map_map]
    apply List.map_congr_left
    intro a _
    show (if a.id = u.id then ({ a with story_offset := offset, dt_updated := now } : UserFeed)
        else a).id = a.id
    by_cases h : a.id = u.id
    · rw [if_pos h]
    · rw [if_neg h]
  obtain ⟨changed, heq, hiff⟩ :=
    UserFeed.query_by_user_hints_spec (UserFeed.update_story_offset db u.id offset now)
      user_id hints show_pending hne (by rw [hids]; exact hnodup)
  refine ⟨rfl, rfl, hmono, hmem, changed, heq, ?_⟩
  apply (hiff _).mpr
  refine ⟨hmem, huser, hvis, ?_⟩
  cases hdg : dictGet hints u.id with
  | none => exact Or.inl rfl
  | some t => exact Or.inr ⟨t, rfl, hhint t hdg⟩

/-- Store for the C9 witness: user 7 owns subscription id 1 with
`dt_updated = 3`. -/
def dbC9 : Db :=
  { feeds := [],
    user_feeds := [⟨1, 7, none, FeedStatus.ready, "a", 0, 3⟩],
    url_maps := [] }

/-- C9 witness: the theorem applied to the concrete store, updating
subscription 1 to offset 5 at clock reading 9, diffed against the hint map
`{1 ↦ 4}`. -/
theorem claim_C9_witness :
    (⟨1, 7, none, FeedStatus.ready, "a", 0, 3⟩ : UserFeed) ∈ dbC9.user_feeds ∧
      (3 : Nat) < 9 ∧
      (dbC9.user_feeds.map (fun uf => uf.id)).Nodup ∧
      (7 : Nat) = 7 ∧
      UserFeed.visible false (⟨1, 7, none, FeedStatus.ready, "a", 0, 3⟩ : UserFeed) = true ∧
      ([(1, 4)] : List (Nat × Nat)) ≠ [] ∧
      (∀ t, dictGet [(1, 4)] (1 : Nat) = some t → t < 9) ∧
      (((⟨1, 7, none, FeedStatus.ready, "a", 5, 9⟩ : UserFeed).story_offset = 5) ∧
        ((⟨1, 7, none, FeedStatus.ready, "a", 5, 9⟩ : UserFeed).dt_updated = 9) ∧
        ((3 : Nat) < (⟨1, 7, none, FeedStatus.ready, "a", 5, 9⟩ : UserFeed).dt_updated) ∧
        ((⟨1, 7, none, FeedStatus.ready, "a", 5, 9⟩ : UserFeed)
          ∈ (UserFeed.update_story_offset dbC9 1 5 9).user_feeds) ∧
        ∃ changed,
          UserFeed.query_by_user (UserFeed.update_story_offset dbC9 1 5 9) 7 [(1, 4)] false =
            Sum.inr (((UserFeed.update_story_offset dbC9 1 5 9).user_feeds.filter
              (fun uf => decide (uf.user_id = 7) &&
                UserFeed.visible false uf)).length, changed) ∧
          (⟨1, 7, none, FeedStatus.ready, "a", 5, 9⟩ : UserFeed) ∈ changed) :=
  ⟨by decide, by decide, by decide, rfl, by decide, by decide, by decide,
    claim_C9_offset_monotonic_clock dbC9 ⟨1, 7, none, FeedStatus.ready, "a", 0, 3⟩
      5 9 7 [(1, 4)] false (by decide) (by decide) (by decide) rfl (by decide)
      (by decide) (by decide)⟩

end Rssant

namespace Rssant

theorem find?_append_of_none {α : Type} {l1 l2 : List α} {p : α → Bool}
    (h : l1.find? p = none) : (l1 ++ l2).find? p = l2.find? p := by
  induction l1 with
  | nil => rfl
  | cons a t ih =>
    rw [List.find?_cons] at h
    cases hpa : p a with
    | true =>
      rw [hpa] at h
      exact Option.noConfusion h
    | false =>
      rw [hpa] at h
      have hfc : ((a :: t) ++ l2).find? p = (t ++ l2).find? p := by
        rw [List.cons_append, List.find?_cons, hpa]
      rw [hfc]
      exact ih h

/-! ### C4: duplicate subscription detection -/

/-- C4 (amended): `create_by_url` raises the duplicate-subscription error
exactly when the url resolves (to a nonempty target) to an existing Feed
`f` and some persisted Subscription already binds `(user, f)`.  Because
`create_by_url` itself persists nothing, two immediately successive calls
both succeed; the duplicate error on the second call arises once the first
call's returned Subscription is saved to the store in between. -/
theorem claim_C4_duplicate_error (db : Db) (url : String) (user_id : Nat) :
    ((UserFeed.create_by_url db url user_id).1 = Except.error () ↔
      ∃ t f, FeedUrlMap.find_target db url = some t ∧ t ≠ "" ∧
        db.feeds.find? (fun x => decide (x.url = t)) = some f ∧
        ∃ uf ∈ db.user_feeds, uf.user_id = user_id ∧ uf.feed_id = some f.id) ∧
      ∀ s : UserFeed, (UserFeed.create_by_url db url user_id).1 = Except.ok s →
        s.feed_id.isSome = true →
        (UserFeed.create_by_url { db with user_feeds := db.user_feeds ++ [s] }
          url user_id).1 = Except.error () := by
  constructor
  · constructor
    · intro herr
      cases hft : FeedUrlMap.find_target db url with
      | none =>
        simp only [UserFeed.create_by_url, hft] at herr
        exact Except.noConfusion herr
      | some t =>
        by_cases ht : t = ""
        · simp only [UserFeed.create_by_url, hft,
            if_neg (show ¬(t ≠ "") from by simp [ht])] at herr
          exact Except.noConfusion herr
        · cases hff : db.feeds.find? (fun f => decide (f.url = t)) with
          | none =>
            simp only [UserFeed.create_by_url, hft, if_pos ht, hff] at herr
            exact Except.noConfusion herr
          | some f =>
            cases hfu : db.user_feeds.find? (fun uf =>
                decide (uf.user_id = user_id) && decide (uf.feed_id = some f.id)) with
            | none =>
              simp only [UserFeed.create_by_url, hft, if_pos ht, hff, hfu] at herr
              exact Except.noConfusion herr
            | some uf =>
              have hp := List.find?_some hfu
              rw [Bool.and_eq_true] at hp
              exact ⟨t, f, rfl, ht, hff, uf, List.mem_of_find?_eq_some hfu,
                of_decide_eq_true hp.1, of_decide_eq_true hp.2⟩
    · rintro ⟨t, f, hft, ht, hff, uf, hmem, huser, hfeed⟩
      have hsome : (db.user_feeds.find? (fun uf2 =>
          decide (uf2.user_id = user_id) && decide (uf2.feed_id = some f.id))).isSome :=
        List.find?_isSome.mpr ⟨uf, hmem, by
          rw [Bool.and_eq_true]
          exact ⟨decide_eq_true huser, decide_eq_true hfeed⟩⟩
      obtain ⟨x, hfu⟩ := Option.isSome_iff_exists.mp hsome
      simp only [UserFeed.create_by_url, hft, if_pos ht, hff, hfu]
  · intro s hok hsome
    cases hft : FeedUrlMap.find_target db url with
    | none =>
      simp only [UserFeed.create_by_url, hft, Except.ok.injEq] at hok
      rw [← hok] at hsome
      exact absurd hsome (by simp)
    | some t =>
      by_cases ht : t = ""
      · simp only [UserFeed.create_by_url, hft,
          if_neg (show ¬(t ≠ "") from by simp [ht]), Except.ok.injEq] at hok
        rw [← hok] at hsome
        exact absurd hsome (by simp)
      · cases hff : db.feeds.find? (fun f => decide (f.url = t)) with
        | none =>
          simp only [UserFeed.create_by_url, hft, if_pos ht, hff, Except.ok.injEq] at hok
          rw [← hok] at hsome
          exact absurd hsome (by simp)
        | some f =>
          cases hfu : db.user_feeds.find? (fun uf =>
              decide (uf.user_id = user_id) && decide (uf.feed_id = some f.id)) with
          | some x =>
            simp only [UserFeed.create_by_url, hft, if_pos ht, hff, hfu] at hok
            exact Except.noConfusion hok
          | none =>
            simp only [UserFeed.create_by_url, hft, if_pos ht, hff, hfu,
              Except.ok.injEq] at hok
            have hft2 : FeedUrlMap.find_target
                { db with user_feeds := db.user_feeds ++ [s] } url = some t := hft
            have hfind : (db.user_feeds ++ [s]).find? (fun uf =>
                decide (uf.user_id = user_id) && decide (uf.feed_id = some f.id))
                = some s := by
              rw [find?_append_of_none hfu]
              have hps : (decide (s.user_id = user_id) &&
                  decide (s.feed_id = some f.id)) = true := by
                rw [← hok]
                simp
              rw [List.find?_cons, hps]
            simp only [UserFeed.create_by_url, hft2, if_pos ht, hff, hfind]

/-- Store for the C4 witness: url `u` resolves to feed 10 and user 7
already has a persisted subscription bound to feed 10. -/
def dbC4 : Db :=
  { feeds := [⟨10, "T", FeedStatus.ready⟩],
    user_feeds := [⟨1, 7, some 10, FeedStatus.ready, "u0", 0, 0⟩],
    url_maps := [⟨1, "u", "T", 1⟩] }

/-- C4 witness: with a persisted `(user 7, feed 10)` binding in the store,
subscribing user 7 to `u` (which resolves to feed 10) raises the
duplicate-subscription error. -/
theorem claim_C4_witness :
    (UserFeed.create_by_url dbC4 "u" 7).1 = Except.error () :=
  (claim_C4_duplicate_error dbC4 "u" 7).1.mpr
    ⟨"T", ⟨10, "T", FeedStatus.ready⟩, by decide, by decide, by decide,
      ⟨1, 7, some 10, FeedStatus.ready, "u0", 0, 0⟩, by decide, by decide, by decide⟩

/-- Store for the C4 counterexample: url `u` resolves to feed 10 and user 7
has no subscriptions. -/
def dbC4b : Db :=
  { feeds := [⟨10, "T", FeedStatus.ready⟩],
    user_feeds := [],
    url_maps := [⟨1, "u", "T", 1⟩] }

/-- C4 counterexample: `create_by_url` leaves the store unchanged, so the
second of two immediately successive calls runs against the identical
store; that call (the same expression) succeeds instead of raising the
duplicate-subscription error the claim demands. -/
theorem claim_C4_counterexample :
    (UserFeed.create_by_url dbC4b "u" 7).2 = dbC4b ∧
      (UserFeed.create_by_url dbC4b "u" 7).1 ≠ Except.error () := by
  constructor
  · rfl
  · intro h
    rw [show (UserFeed.create_by_url dbC4b "u" 7).1 =
      Except.ok ⟨0, 7, some 10, FeedStatus.ready, "u", 0, 0⟩ from rfl] at h
    exact Except.noConfusion h

end Rssant

namespace Rssant

/-! ### C3: bulk subscribe versus single subscribe -/

theorem dictGet_nil {κ β : Type} [DecidableEq κ] (k : κ) :
    dictGet ([] : List (κ × β)) k = none := rfl

theorem ite_of_false_eq_true {α : Type} (a b : α) :
    (if false = true then a else b) = b := rfl

/-- Filtering the rows built from a duplicate-free url list for one url
keeps exactly the row built from that url. -/
theorem filterMap_filter_eq_singleton {mk : String → Option UserFeed} :
    ∀ urls : List String, urls.Nodup →
      (∀ u, ∃ r, mk u = some r ∧ r.url = u) →
      ∀ url : String, url ∈ urls → ∀ s : UserFeed, mk url = some s →
        (urls.filterMap mk).filter (fun uf => decide (uf.url = url)) = [s] := by
  intro urls
  induction urls with
  | nil =>
    intro _ _ url hmem
    exact absurd hmem (List.not_mem_nil url)
  | cons u t ih =>
    intro hnd hmk url hmem s hs
    obtain ⟨r, hr, hru⟩ := hmk u
    rw [List.filterMap_cons_some hr]
    have hut : u ∉ t := (List.nodup_cons.mp hnd).1
    rcases List.mem_cons.mp hmem with h | h
    · have hrs : r = s := Option.some.inj ((h ▸ hr).symm.trans hs)
      have hfilter_tail : (t.filterMap mk).filter (fun uf => decide (uf.url = url)) = [] := by
        rw [List.filter_eq_nil_iff]
        intro x hx hdec
        obtain ⟨u2, hu2, hmku2⟩ := List.mem_filterMap.mp hx
        obtain ⟨r2, hr2, hr2u⟩ := hmk u2
        have hxr2 : x = r2 := Option.some.inj (hmku2.symm.trans hr2)
        have hxu : x.url = u2 := by rw [hxr2, hr2u]
        have : url ∈ t := by
          rw [← of_decide_eq_true hdec, hxu] at h
          rw [h] at hu2
          exact absurd hu2 (h ▸ hut)
        exact absurd (h ▸ this) hut
      have hpr : (decide (r.url = url)) = true := decide_eq_true (by rw [hru, ← h])
      have hfc : (r :: t.filterMap mk).filter (fun uf => decide (uf.url = url))
          = r :: (t.filterMap mk).filter (fun uf => decide (uf.url = url)) :=
        List.filter_cons_of_pos hpr
      rw [hfc, hfilter_tail, hrs]
    · have hune : u ≠ url := fun he => hut (he ▸ h)
      have hpr : ¬ (decide (r.url = url)) = true := by
        simp only [decide_eq_true_eq]
        rw [hru]
        exact hune
      have hfc : (r :: t.filterMap mk).filter (fun uf => decide (uf.url = url))
          = (t.filterMap mk).filter (fun uf => decide (uf.url = url)) :=
        List.filter_cons_of_neg hpr
      rw [hfc]
      exact ih (List.nodup_cons.mp hnd).2 hmk url h s hs

/-- The single subscribe path for a user with no prior subscriptions: the
duplicate check cannot fire, so the call returns the row determined by the
feed lookup. -/
theorem create_by_url_no_prior (db : Db) (url : String) (user_id : Nat)
    (hnoprior : ∀ uf ∈ db.user_feeds, uf.user_id ≠ user_id) :
    (UserFeed.create_by_url db url user_id).1 = Except.ok
      (match (match FeedUrlMap.find_target db url with
        | some target_url =>
          if target_url ≠ "" then db.feeds.find? (fun f => decide (f.url = target_url))
          else none
        | none => none : Option Feed) with
       | some f => { id := 0, user_id := user_id, feed_id := some f.id,
                     status := FeedStatus.ready, url := url, story_offset := 0,
                     dt_updated := 0 }
       | none => { id := 0, user_id := user_id, feed_id := none,
                   status := FeedStatus.pending, url := url, story_offset := 0,
                   dt_updated := 0 }) := by
  cases hF : (match FeedUrlMap.find_target db url with
    | some target_url =>
      if target_url ≠ "" then db.feeds.find? (fun f => decide (f.url = target_url))
      else none
    | none => none : Option Feed) with
  | none => simp only [UserFeed.create_by_url, hF]
  | some f =>
    have hfu : db.user_feeds.find? (fun uf =>
        decide (uf.user_id = user_id) && decide (uf.feed_id = some f.id)) = none :=
      List.find?_eq_none.mpr (fun x hx => by simp [hnoprior x hx])
    simp only [UserFeed.create_by_url, hF, hfu]

end Rssant

namespace Rssant

/-- C3 (amended): for a duplicate-free url list and a user with no prior
subscriptions (over a store whose feed urls are unique and nonempty, per
the schema), `create_by_url_s` produces for each url exactly one row, and
that row is the one `create_by_url` returns for that url individually:
bound with status ready when the url resolves to an existing Feed, unbound
pending otherwise.  (Urls occurring more than once in the input are NOT
collapsed: each occurrence yields a row, see the counterexample.) -/
theorem claim_C3_bulk_single_equivalence (db : Db) (urls : List String) (user_id : Nat)
    (hurls : urls.Nodup)
    (hnoprior : ∀ uf ∈ db.user_feeds, uf.user_id ≠ user_id)
    (hfeedu : (db.feeds.map (fun f => f.url)).Nodup)
    (hfne : ∀ f ∈ db.feeds, f.url ≠ "") :
    ∀ url ∈ urls, ∃ s : UserFeed,
      (UserFeed.create_by_url db url user_id).1 = Except.ok s ∧
      (UserFeed.create_by_url_s db urls user_id).filter
        (fun uf => decide (uf.url = url)) = [s] := by
  intro url hmem
  have hne' : ¬ urls.isEmpty = true := fun h => by
    rw [List.isEmpty_iff.mp h] at hmem
    exact absurd hmem (List.not_mem_nil url)
  have htgt : FeedUrlMap.find_all_target db urls url = FeedUrlMap.find_target db url :=
    FeedUrlMap.find_all_target_eq_find_target db urls url hmem
  have hndf : ((db.feeds.filter (fun f =>
      ((urls.filterMap (FeedUrlMap.find_all_target db urls)).dedup).contains f.url)).map
        (fun f => f.url)).Nodup :=
    List.Nodup.sublist ((List.filter_sublist db.feeds).map (fun f => f.url)) hfeedu
  have hfuf : db.user_feeds.filter (fun uf =>
      decide (uf.user_id = user_id) &&
        (match uf.feed_id with
         | some fid => (db.feeds.filter (fun f =>
             ((urls.filterMap (FeedUrlMap.find_all_target db urls)).dedup).contains
               f.url)).any (fun f => decide (f.id = fid))
         | none => false)) = [] := by
    rw [List.filter_eq_nil_iff]
    intro uf hm
    simp [hnoprior uf hm]
  have hfeed : (FeedUrlMap.find_all_target db urls url).bind
      (dictGet ((db.feeds.filter (fun f =>
        ((urls.filterMap (FeedUrlMap.find_all_target db urls)).dedup).contains
          f.url)).map (fun f => (f.url, f))))
      = (match FeedUrlMap.find_target db url with
         | some target_url =>
           if target_url ≠ "" then db.feeds.find? (fun f => decide (f.url = target_url))
           else none
         | none => none : Option Feed) := by
    rw [htgt]
    cases hft : FeedUrlMap.find_target db url with
    | none => rfl
    | some t =>
      show dictGet ((db.feeds.filter (fun f =>
        ((urls.filterMap (FeedUrlMap.find_all_target db urls)).dedup).contains
          f.url)).map (fun f => (f.url, f))) t = _
      rw [dictGet_map_key (db.feeds.filter (fun f =>
        ((urls.filterMap (FeedUrlMap.find_all_target db urls)).dedup).contains f.url))
        (fun f => f.url) t hndf]
      show _ = (if t ≠ "" then db.feeds.find? (fun f => decide (f.url = t)) else none)
      by_cases ht : t = ""
      · rw [if_neg (by simp [ht])]
        exact List.find?_eq_none.mpr (fun x hx hdec =>
          hfne x (List.mem_filter.mp hx).1 (ht ▸ of_decide_eq_true hdec))
      · rw [if_pos ht]
        have htmem : t ∈ (urls.filterMap (FeedUrlMap.find_all_target db urls)).dedup :=
          List.mem_dedup.mpr (List.mem_filterMap.mpr ⟨url, hmem, by rw [htgt, hft]⟩)
        exact find?_filter_of_imp db.feeds _ _ (fun x hx => by
          rw [of_decide_eq_true hx]
          exact contains_iff_mem.mpr htmem)
  cases hF : (match FeedUrlMap.find_target db url with
     | some target_url =>
       if target_url ≠ "" then db.feeds.find? (fun f => decide (f.url = target_url))
       else none
     | none => none : Option Feed) with
  | some f =>
    refine ⟨{ id := 0, user_id := user_id, feed_id := some f.id,
              status := FeedStatus.ready, url := url, story_offset := 0,
              dt_updated := 0 }, ?_, ?_⟩
    · rw [create_by_url_no_prior db url user_id hnoprior, hF]
    · simp only [UserFeed.create_by_url_s]
      rw [if_neg hne', hfuf]
      simp only [List.filterMap_nil, dictGet_nil, Option.isSome_none,
        ite_of_false_eq_true, List.nil_append]
      rw [← List.perm_singleton]
      refine ((sortLe_perm _ _).filter _).trans ?_
      rw [List.perm_singleton]
      refine filterMap_filter_eq_singleton urls hurls ?_ url hmem _ ?_
      · intro u
        cases hFu : (FeedUrlMap.find_all_target db urls u).bind
            (dictGet ((db.feeds.filter (fun f =>
              ((urls.filterMap (FeedUrlMap.find_all_target db urls)).dedup).contains
                f.url)).map (fun f => (f.url, f)))) with
        | some feed => exact ⟨_, rfl, rfl⟩
        | none => exact ⟨_, rfl, rfl⟩
      · rw [hfeed, hF]
  | none =>
    refine ⟨{ id := 0, user_id := user_id, feed_id := none,
              status := FeedStatus.pending, url := url, story_offset := 0,
              dt_updated := 0 }, ?_, ?_⟩
    · rw [create_by_url_no_prior db url user_id hnoprior, hF]
    · simp only [UserFeed.create_by_url_s]
      rw [if_neg hne', hfuf]
      simp only [List.filterMap_nil, dictGet_nil, Option.isSome_none,
        ite_of_false_eq_true, List.nil_append]
      rw [← List.perm_singleton]
      refine ((sortLe_perm _ _).filter _).trans ?_
      rw [List.perm_singleton]
      refine filterMap_filter_eq_singleton urls hurls ?_ url hmem _ ?_
      · intro u
        cases hFu : (FeedUrlMap.find_all_target db urls u).bind
            (dictGet ((db.feeds.filter (fun f =>
              ((urls.filterMap (FeedUrlMap.find_all_target db urls)).dedup).contains
                f.url)).map (fun f => (f.url, f)))) with
        | some feed => exact ⟨_, rfl, rfl⟩
        | none => exact ⟨_, rfl, rfl⟩
      · rw [hfeed, hF]

end Rssant

namespace Rssant

/-- Empty store for the C3 counterexample. -/
def dbC3 : Db := { feeds := [], user_feeds := [], url_maps := [] }

/-- C3 counterexample: a url appearing twice in the input is not created
only once — the per-url loop has no in-batch dedup, so both occurrences
produce a row (two unbound pending subscriptions here; on the resolved
path the same double-create happens and would even violate the
`(user, feed)` unique constraint at insert time). -/
theorem claim_C3_counterexample :
    ((UserFeed.create_by_url_s dbC3 ["u", "u"] 7).filter
      (fun uf => decide (uf.url = "u"))).length ≠ 1 := by
  have h1 : UserFeed.create_by_url_s dbC3 ["u", "u"] 7
      = sortLe (fun a b => decide (a.url ≤ b.url))
          [⟨0, 7, none, FeedStatus.pending, "u", 0, 0⟩,
           ⟨0, 7, none, FeedStatus.pending, "u", 0, 0⟩] := rfl
  rw [h1]
  have h2 := ((sortLe_perm (fun a b : UserFeed => decide (a.url ≤ b.url))
      [⟨0, 7, none, FeedStatus.pending, "u", 0, 0⟩,
       ⟨0, 7, none, FeedStatus.pending, "u", 0, 0⟩]).filter
      (fun uf => decide (uf.url = "u"))).length_eq
  rw [h2]
  decide

/-- Store for the C3 witness: url `u` resolves to feed 10, url `v` is
unknown; user 7 has no subscriptions. -/
def dbC3w : Db :=
  { feeds := [⟨10, "T", FeedStatus.ready⟩],
    user_feeds := [],
    url_maps := [⟨1, "u", "T", 1⟩] }

/-- C3 witness: the bulk/single equivalence applied to the concrete store
and the duplicate-free url list `[u, v]` (one resolving, one pending). -/
theorem claim_C3_witness :
    (["u", "v"] : List String).Nodup ∧
      (∀ uf ∈ dbC3w.user_feeds, uf.user_id ≠ 7) ∧
      (dbC3w.feeds.map (fun f => f.url)).Nodup ∧
      (∀ f ∈ dbC3w.feeds, f.url ≠ "") ∧
      (∀ url ∈ (["u", "v"] : List String), ∃ s : UserFeed,
        (UserFeed.create_by_url dbC3w url 7).1 = Except.ok s ∧
        (UserFeed.create_by_url_s dbC3w ["u", "v"] 7).filter
          (fun uf => decide (uf.url = url)) = [s]) :=
  ⟨by decide, by decide, by decide, by decide,
    claim_C3_bulk_single_equivalence dbC3w ["u", "v"] 7 (by decide) (by decide)
      (by decide) (by decide)⟩

end Rssant
